import Mathlib

/-!
Verification of the BOLT-8 style handshake and transport layer of
`lib/lnbase.py` (electrum-civx).  Byte strings are embedded as `List Nat`
(each entry one byte).  Pure functions of the source are transliterated;
external primitives (SHA-256, HMAC, the ChaCha20Poly1305 AEAD, elliptic-curve
point arithmetic) and the `electrum.bitcoin` helpers that are not part of the
sampled sources are modelled at the interface the spec describes, each with a
doc comment saying exactly what is modelled.
-/

namespace LNBase

/-- `decode(string)` from lnbase.py: big-endian interpretation of a byte
string, `result = result * 256 + byte` over the bytes left to right. -/
def decode (l : List Nat) : Nat :=
  l.foldl (fun r b => r * 256 + b) 0

/-- Modelled from the spec: `encode(n, s)` in lnbase.py is
`bfh(rev_hex(int_to_hex(n, s)))`, where `int_to_hex`, `rev_hex` and `bfh`
live in `electrum.bitcoin`, which is not among the sampled sources.  Per the
lnbase docstring ("a bytestring version of the integer value n, with a string
length of s") and the spec's framing/nonce sections it is the `s`-byte
big-endian encoding of `n`, the inverse of `decode`, for `n < 256 ^ s`. -/
def encode : Nat → Nat → List Nat
  | _, 0 => []
  | n, s + 1 => encode (n / 256) s ++ [n % 256]

/-- The `s`-byte little-endian encoding of `n`, exactly as the spec's words
describe the nonce layout ("the 8-byte little-endian encoding of n"). -/
def encodeLE : Nat → Nat → List Nat
  | _, 0 => []
  | n, s + 1 => n % 256 :: encodeLE (n / 256) s

/-- Modelled from the spec: SHA-256 (`hashlib.sha256(...).digest()`), an
external primitive.  Modelled as a deterministic 32-byte digest of the input;
the development relies only on determinism and the 32-byte output length. -/
def sha256_model (data : List Nat) : List Nat :=
  (List.range 32).map fun i =>
    (data.foldl (fun a b => (a * 131 + b + 1) % 65536) (i + 7)) % 256

/-- `H256(data)` from lnbase.py. -/
def H256 (data : List Nat) : List Nat := sha256_model data

/-- Modelled from the spec: `hmac.new(key, msg, sha256).digest()` (Python
standard library, external).  Modelled with the nested-hash HMAC shape over
the modelled SHA-256; again only determinism and the 32-byte length matter. -/
def hmac_sha256 (key msg : List Nat) : List Nat :=
  sha256_model (key ++ sha256_model (key ++ msg))

/-- `get_bolt8_hkdf(salt, ikm)` from lnbase.py: extract
`prk = HMAC(salt, ikm)`, then expand with empty info:
`T1 = HMAC(prk, 0x01)`, `T2 = HMAC(prk, T1 || 0x02)`. -/
def get_bolt8_hkdf (salt ikm : List Nat) : List Nat × List Nat :=
  let prk := hmac_sha256 salt ikm
  let info : List Nat := []
  let T0 : List Nat := []
  let T1 := hmac_sha256 prk (T0 ++ info ++ [1])
  let T2 := hmac_sha256 prk (T1 ++ info ++ [2])
  (T1, T2)

/-- `get_nonce_bytes(n)` from lnbase.py: 4 zero bytes, then `encode(n, 8)`
reversed in place (big-endian turned little-endian). -/
def get_nonce_bytes (n : Nat) : List Nat :=
  List.replicate 4 0 ++ (encode n 8).reverse

/-- Modelled from the spec: one keystream byte of the ChaCha20 stream cipher
(`cryptography.hazmat...ChaCha20Poly1305`, external).  A deterministic
function of key, nonce bytes and byte position; the development relies only
on determinism. -/
def ksByte (key nonceB : List Nat) (i : Nat) : Nat :=
  (key.foldl (fun a b => (a * 131 + b + 1) % 65536)
    (nonceB.foldl (fun a b => (a * 131 + b + 1) % 65536) (i + 1))) % 256

/-- XOR of a byte string with the modelled keystream starting at position
`i` (stream-cipher en/decryption body of the modelled AEAD). -/
def xorKS (key nonceB : List Nat) : Nat → List Nat → List Nat
  | _, [] => []
  | i, b :: t => (b ^^^ ksByte key nonceB i) :: xorKS key nonceB (i + 1) t

/-- Structural worker for `strideXor`; the fuel bounds the number of bytes
still inspected so the recursion is structural and computes by reduction. -/
def strideXorAux : Nat → List Nat → Nat
  | 0, _ => 0
  | _ + 1, [] => 0
  | fuel + 1, b :: t => b ^^^ strideXorAux fuel (t.drop 15)

/-- XOR-fold of the bytes of `l` at positions 0, 16, 32, ... (one lane of the
modelled polynomial MAC). -/
def strideXor (l : List Nat) : Nat := strideXorAux l.length l

/-- The ciphertext folded into a 16-byte block, lane `i` holding the XOR of
the ciphertext bytes at positions congruent to `i` mod 16. -/
def xorFold16 (ct : List Nat) : List Nat :=
  (List.range 16).map fun i => strideXor (ct.drop i)

/-- Modelled from the spec: the 16-byte Poly1305 authentication tag of the
external ChaCha20Poly1305 AEAD, binding key, nonce, associated data and
ciphertext.  Modelled as a deterministic 16-byte MAC: a pseudorandom base
block (a function of key, nonce, associated data and ciphertext length)
XORed with the folded ciphertext, so that any single-bit change of the
ciphertext or tag fails verification, as the spec's §8 requires. -/
def polyTag (key nonceB ad ct : List Nat) : List Nat :=
  List.zipWith (· ^^^ ·)
    ((hmac_sha256 (key ++ nonceB) (ad ++ encode ct.length 8)).take 16)
    (xorFold16 ct)

/-- `aead_encrypt(k, nonce, associated_data, data)` from lnbase.py: the
ChaCha20Poly1305 encryption `a.encrypt(nonce_bytes, data, associated_data)`
under the modelled cipher — stream-ciphered data followed by the 16-byte
tag. -/
def aead_encrypt (k : List Nat) (nonce : Nat) (associated_data data : List Nat) : List Nat :=
  let nonce_bytes := get_nonce_bytes nonce
  let ct := xorKS k nonce_bytes 0 data
  ct ++ polyTag k nonce_bytes associated_data ct

/-- `aead_decrypt(k, nonce, associated_data, data)` from lnbase.py: the
ChaCha20Poly1305 decryption, which raises `InvalidTag` when the tag does not
verify (embedded as `none`); inputs shorter than a tag can never verify. -/
def aead_decrypt (k : List Nat) (nonce : Nat) (associated_data data : List Nat) :
    Option (List Nat) :=
  let nonce_bytes := get_nonce_bytes nonce
  if data.length < 16 then none
  else
    let ct := data.take (data.length - 16)
    let tag := data.drop (data.length - 16)
    if polyTag k nonce_bytes associated_data ct = tag then
      some (xorKS k nonce_bytes 0 ct)
    else none

/-- `HandshakeState.protocol_name` from lnbase.py, as ASCII bytes. -/
def protocol_name : List Nat :=
  "Noise_XK_secp256k1_ChaChaPoly_SHA256".data.map Char.toNat

/-- `HandshakeState.prologue` from lnbase.py, as ASCII bytes. -/
def prologue : List Nat := "lightning".data.map Char.toNat

/-- `HandshakeState.handshake_version` from lnbase.py (`b"\x00"`). -/
def handshake_version : List Nat := [0]

/-- The mutable fields of lnbase.py's `HandshakeState`, embedded as an
immutable record threaded through the handshake steps. -/
structure HandshakeState where
  h : List Nat
  ck : List Nat
  responder_pub : List Nat
deriving DecidableEq

/-- `HandshakeState.update(data)`: `h = H256(h + data)`. -/
def HandshakeState.update (hs : HandshakeState) (data : List Nat) : HandshakeState :=
  { hs with h := H256 (hs.h ++ data) }

/-- `HandshakeState.__init__(responder_pub)`: `h = H256(protocol_name)`,
`ck = h`, then `update(prologue)` and `update(responder_pub)`. -/
def HandshakeState.init (responder_pub : List Nat) : HandshakeState :=
  let h0 := H256 protocol_name
  let hs0 : HandshakeState := ⟨h0, h0, responder_pub⟩
  (hs0.update prologue).update responder_pub

/-- Modelled from the spec: `public_key_from_private_key(priv, True)` from
`electrum.bitcoin`, which is not among the sampled sources.  Per the spec it
returns the 33-byte compressed secp256k1 public point of the 32-byte private
scalar; the curve arithmetic is out of the spec's scope, so the derivation is
modelled as a deterministic function producing a compressed serialization
(one parity byte followed by 32 coordinate bytes). -/
def public_key_from_private_key (priv : List Nat) : List Nat :=
  2 :: (List.range 32).map fun i =>
    (priv.foldl (fun a b => (a * 131 + b + 1) % 65536) (i + 3)) % 256

/-- `privkey_to_pubkey(priv)` from lnbase.py:
`public_key_from_private_key(priv[:32], True)` decoded from hex. -/
def privkey_to_pubkey (priv : List Nat) : List Nat :=
  public_key_from_private_key (priv.take 32)

/-- `create_ephemeral_key(privkey)` from lnbase.py: returns
`(privkey[:32], privkey_to_pubkey(privkey))`. -/
def create_ephemeral_key (privkey : List Nat) : List Nat × List Nat :=
  let pub := privkey_to_pubkey privkey
  (privkey.take 32, pub)

/-- Modelled from the spec: `ser_to_point`, `point_to_ser` and
`string_to_number` from `electrum.bitcoin` (not among the sampled sources) —
scalar decoding, elliptic-curve point multiplication and point
serialization.  Modelled as a deterministic serialized point computed from
the private scalar and the peer public point. -/
def point_mul_ser (priv pub : List Nat) : List Nat :=
  3 :: (List.range 32).map fun i =>
    ((priv ++ pub).foldl (fun a b => (a * 131 + b + 1) % 65536) (i + 5)) % 256

/-- `get_ecdh(priv, pub)` from lnbase.py: SHA-256 of the serialized product
point. -/
def get_ecdh (priv pub : List Nat) : List Nat :=
  H256 (point_mul_ser priv pub)

/-- `act1_initiator_message(hs, my_privkey)` from lnbase.py, returning the
wire message together with the updated handshake state (the Python mutates
`hs` in place). -/
def act1_initiator_message (hs : HandshakeState) (my_privkey : List Nat) :
    List Nat × HandshakeState :=
  let ek := create_ephemeral_key my_privkey
  let epriv := ek.1
  let epub := ek.2
  let hs1 := hs.update epub
  let ss := get_ecdh epriv hs.responder_pub
  let kk := get_bolt8_hkdf hs1.ck ss
  let ck2 := kk.1
  let temp_k1 := kk.2
  let hs2 := { hs1 with ck := ck2 }
  let c := aead_encrypt temp_k1 0 hs2.h []
  let hs3 := hs2.update c
  (handshake_version ++ epub ++ c, hs3)

/-- `send_message(writer, msg, sk, sn)` from lnbase.py, returning the bytes
written to the stream: the encrypted 2-byte length at nonce `sn` followed by
the encrypted body at nonce `sn + 1`. -/
def send_message (sk : List Nat) (sn : Nat) (msg : List Nat) : List Nat :=
  let l := encode msg.length 2
  let lc := aead_encrypt sk sn [] l
  let c := aead_encrypt sk (sn + 1) [] msg
  lc ++ c

/-- Outcome of one `read_message` call over a finite chunked stream:
`ok msg rest` returns the plaintext and the chunks not yet read;
`authFail` is the `InvalidTag` exception raised by `aead_decrypt`;
`starved` marks the stream running out with the frame incomplete (the
Python coroutine would stay blocked in its read loop). -/
inductive ReadResult where
  | ok : List Nat → List (List Nat) → ReadResult
  | authFail : ReadResult
  | starved : ReadResult
deriving DecidableEq

/-- The accumulation loop of `read_message(reader, rk, rn)` from lnbase.py:
each iteration appends the next chunk delivered by the reader to the local
buffer `rspns`, decrypts `rspns[:18]` at nonce `rn`, and once
`18 + length + 16` bytes are buffered decrypts the body at nonce `rn + 1`.
Exactly as in the source, the first 18 bytes are sliced and decrypted
without first checking that 18 bytes have arrived, and the bytes of the
buffer beyond the frame are dropped when the call returns. -/
def read_message_loop (rk : List Nat) (rn : Nat) :
    List Nat → List (List Nat) → ReadResult
  | _, [] => .starved
  | rspns, chunk :: rest =>
    let r := rspns ++ chunk
    let lc := r.take 18
    match aead_decrypt rk rn [] lc with
    | none => .authFail
    | some l =>
      let length := decode l
      if r.length < 18 + length + 16 then read_message_loop rk rn r rest
      else
        match aead_decrypt rk (rn + 1) [] ((r.drop 18).take (length + 16)) with
        | none => .authFail
        | some msg => .ok msg rest

/-- `read_message(reader, rk, rn)` from lnbase.py, with the reader embedded
as the list of chunks its successive `read` calls deliver. -/
def read_message (chunks : List (List Nat)) (rk : List Nat) (rn : Nat) : ReadResult :=
  read_message_loop rk rn [] chunks

/-- The error kinds of the spec's §7 that the sampled code can raise while
consuming the Act 2 reply or a transport frame: `protocolErr` for the
`assert`s on length and version, `authErr` for `InvalidTag`. -/
inductive LNError where
  | protocolErr : LNError
  | authErr : LNError
deriving DecidableEq

/-- The Act 2 checks of `main_loop` from lnbase.py, in source order: first
`assert len(rspns) == 50`, then the split
`hver, alice_epub, tag = rspns[0], rspns[1:34], rspns[34:]`, then
`assert bytes([hver]) == hs.handshake_version`. -/
def main_loop_act2_checks (rspns : List Nat) :
    Except LNError (Nat × List Nat × List Nat) :=
  if rspns.length ≠ 50 then .error .protocolErr
  else
    let hver := rspns.getD 0 0
    let alice_epub := (rspns.drop 1).take 33
    let tag := rspns.drop 34
    if hver ≠ 0 then .error .protocolErr
    else .ok (hver, alice_epub, tag)

/-- The Act 2 key derivation and decryption of `main_loop` from lnbase.py,
run only after the checks pass: mix the peer ephemeral key, recompute the
ephemeral key pair, ECDH, HKDF, decrypt the tag at nonce 0, mix the tag. -/
def main_loop_act2_derive (hs : HandshakeState) (my_privkey alice_epub tagbytes : List Nat) :
    Except LNError (HandshakeState × List Nat) :=
  let hs1 := hs.update alice_epub
  let ek := create_ephemeral_key my_privkey
  let myepriv := ek.1
  let ss := get_ecdh myepriv alice_epub
  let kk := get_bolt8_hkdf hs1.ck ss
  let hs2 := { hs1 with ck := kk.1 }
  let temp_k2 := kk.2
  match aead_decrypt temp_k2 0 hs2.h tagbytes with
  | none => .error .authErr
  | some _ =>
    let hs3 := hs2.update tagbytes
    .ok (hs3, temp_k2)

/-- The initiator's consumption of the Act 2 reply in `main_loop`: the
checks followed, only on success, by the derivation. -/
def main_loop_act2 (hs : HandshakeState) (my_privkey rspns : List Nat) :
    Except LNError (HandshakeState × List Nat) :=
  match main_loop_act2_checks rspns with
  | .error e => .error e
  | .ok (_, alice_epub, tag) => main_loop_act2_derive hs my_privkey alice_epub tag

/-- The init message sent by `main_loop`:
`encode(16, 2) + encode(0, 2) + encode(0, 2)`. -/
def init_msg : List Nat := encode 16 2 ++ encode 0 2 ++ encode 0 2

/-- The ping message sent by `main_loop`:
`encode(18, 2) + encode(4, 2) + encode(4, 2) + b"\x00" * 4`. -/
def ping_msg : List Nat :=
  encode 18 2 ++ encode 4 2 ++ encode 4 2 ++ List.replicate 4 0

/-- The observable outcome of `main_loop`'s transport phase: the final
counters, the frames written and the plaintexts read. -/
structure TransportLog where
  sn : Nat
  rn : Nat
  sent : List (List Nat)
  received : List (List Nat)
deriving DecidableEq

/-- The transport phase of `main_loop` from lnbase.py after the handshake:
`sn = 0; rn = 0`, read the peer's init (`rn += 2`), send init (`sn += 2`),
send ping (`sn += 2`), read the pong (`rn += 2`).  `none` embeds the run
aborting inside a `read_message` call. -/
def main_loop_transport (sk rk : List Nat) (chunks : List (List Nat)) :
    Option TransportLog :=
  let sn0 := 0
  let rn0 := 0
  match read_message chunks rk rn0 with
  | .ok msg1 rest1 =>
    let rn1 := rn0 + 2
    let f1 := send_message sk sn0 init_msg
    let sn1 := sn0 + 2
    let f2 := send_message sk sn1 ping_msg
    let sn2 := sn1 + 2
    match read_message rest1 rk rn1 with
    | .ok msg2 _ =>
      let rn2 := rn1 + 2
      some ⟨sn2, rn2, [f1, f2], [msg1, msg2]⟩
    | _ => none
  | _ => none

/-- The AEAD nonce counters a transport direction consumes when its
messages go out at the given counter values: counter `n` covers the length
sub-message at nonce `n` and the body at nonce `n + 1`. -/
def noncesUsed (counters : List Nat) : List Nat :=
  counters.flatMap fun n => [n, n + 1]

/-- Flip bit `k` of byte `j` of a byte string. -/
def flipBit (l : List Nat) (j k : Nat) : List Nat :=
  l.set j ((l.getD j 0) ^^^ (1 <<< k))

/-- A concrete 32-byte transport key used to evaluate the model. -/
def testKey : List Nat := List.replicate 32 9

/-- A concrete two-frame chunk stream for exercising the transport phase. -/
def c8chunks : List (List Nat) :=
  [send_message testKey 0 [5], send_message testKey 2 [6]]

/-- The transport log `main_loop_transport` produces on `c8chunks`. -/
def c8log : TransportLog :=
  ⟨4, 4, [send_message testKey 0 init_msg, send_message testKey 2 ping_msg],
    [[5], [6]]⟩

theorem encode_length : ∀ (s n : Nat), (encode n s).length = s
  | 0, _ => rfl
  | s + 1, n => by simp [encode, encode_length s]

theorem encode_reverse : ∀ (s n : Nat), (encode n s).reverse = encodeLE n s
  | 0, _ => rfl
  | s + 1, n => by simp [encode, encodeLE, encode_reverse s]

theorem sha256_model_length (d : List Nat) : (sha256_model d).length = 32 := by
  simp [sha256_model]

theorem hmac_sha256_length (k m : List Nat) : (hmac_sha256 k m).length = 32 :=
  sha256_model_length _

theorem public_key_length (p : List Nat) :
    (public_key_from_private_key p).length = 33 := by
  simp [public_key_from_private_key]

theorem xorKS_length (k nb : List Nat) :
    ∀ (l : List Nat) (i : Nat), (xorKS k nb i l).length = l.length
  | [], _ => rfl
  | _ :: t, i => by simp [xorKS, xorKS_length k nb t]

theorem xorKS_invol (k nb : List Nat) :
    ∀ (l : List Nat) (i : Nat), xorKS k nb i (xorKS k nb i l) = l
  | [], _ => rfl
  | _ :: t, i => by simp [xorKS, xorKS_invol k nb t, Nat.xor_cancel_right]

theorem xorFold16_length (ct : List Nat) : (xorFold16 ct).length = 16 := by
  simp [xorFold16]

theorem polyTag_length (k nb ad ct : List Nat) : (polyTag k nb ad ct).length = 16 := by
  simp [polyTag, List.length_zipWith, xorFold16_length, hmac_sha256_length]

theorem aead_encrypt_length (k : List Nat) (n : Nat) (ad pt : List Nat) :
    (aead_encrypt k n ad pt).length = pt.length + 16 := by
  simp [aead_encrypt, xorKS_length, polyTag_length]

theorem take33_pubkey (p x : List Nat) :
    (privkey_to_pubkey p ++ x).take 33 = privkey_to_pubkey p := by
  have h : (privkey_to_pubkey p).length = 33 := public_key_length _
  rw [← h, List.take_left]

/-- C3: `get_bolt8_hkdf` is a pure function of `(salt, ikm)` computing
`prk = HMAC-SHA256(salt, ikm)`, `T1 = HMAC-SHA256(prk, 0x01)`,
`T2 = HMAC-SHA256(prk, T1 || 0x02)` and returning `(T1, T2)`, each half
exactly 32 bytes. -/
theorem C3_hkdf_structure (salt ikm : List Nat) :
    get_bolt8_hkdf salt ikm =
      (hmac_sha256 (hmac_sha256 salt ikm) [1],
       hmac_sha256 (hmac_sha256 salt ikm)
         (hmac_sha256 (hmac_sha256 salt ikm) [1] ++ [2])) ∧
    (get_bolt8_hkdf salt ikm).1.length = 32 ∧
    (get_bolt8_hkdf salt ikm).2.length = 32 :=
  ⟨rfl, hmac_sha256_length _ _, hmac_sha256_length _ _⟩

/-- C5: for every 64-bit counter `n`, the AEAD nonce built by
`get_nonce_bytes` is exactly 12 bytes: 4 zero bytes followed by the 8-byte
little-endian encoding of `n`. -/
theorem C5_nonce_layout (n : Nat) (_hn : n < 2 ^ 64) :
    get_nonce_bytes n = List.replicate 4 0 ++ encodeLE n 8 ∧
    (get_nonce_bytes n).length = 12 := by
  constructor
  · simp [get_nonce_bytes, encode_reverse]
  · simp [get_nonce_bytes, encode_length]

theorem C5_witness : 5 < 2 ^ 64 ∧
    (get_nonce_bytes 5 = List.replicate 4 0 ++ encodeLE 5 8 ∧
     (get_nonce_bytes 5).length = 12) :=
  ⟨by norm_num, C5_nonce_layout 5 (by norm_num)⟩

/-- C2: for every initiator private key and every handshake state (hence
every responder static public key, `hs.responder_pub`), the Act 1 message is
exactly 50 bytes: the version byte `0x00`, the 33-byte compressed ephemeral
public key, and the 16-byte AEAD encryption of the empty plaintext under
`temp_k1` at nonce 0 with the transcript hash (after mixing the ephemeral
key) as associated data. -/
theorem C2_act1_message_shape (priv rpub : List Nat) (hs : HandshakeState) :
    ((act1_initiator_message hs priv).1).length = 50 ∧
    (act1_initiator_message hs priv).1 =
      handshake_version ++ (create_ephemeral_key priv).2 ++
        aead_encrypt
          (get_bolt8_hkdf hs.ck
            (get_ecdh (create_ephemeral_key priv).1 hs.responder_pub)).2 0
          (hs.update (create_ephemeral_key priv).2).h [] ∧
    handshake_version = [0] ∧
    ((create_ephemeral_key priv).2).length = 33 ∧
    (aead_encrypt
        (get_bolt8_hkdf hs.ck
          (get_ecdh (create_ephemeral_key priv).1 hs.responder_pub)).2 0
        (hs.update (create_ephemeral_key priv).2).h []).length = 16 ∧
    (HandshakeState.init rpub).responder_pub = rpub := by
  refine ⟨?_, rfl, rfl, public_key_length _, ?_, rfl⟩
  · have hshape : (act1_initiator_message hs priv).1 =
        handshake_version ++ (create_ephemeral_key priv).2 ++
          aead_encrypt
            (get_bolt8_hkdf hs.ck
              (get_ecdh (create_ephemeral_key priv).1 hs.responder_pub)).2 0
            (hs.update (create_ephemeral_key priv).2).h [] := rfl
    rw [hshape]
    have h1 : ((create_ephemeral_key priv).2).length = 33 := public_key_length _
    have h2 := aead_encrypt_length
      (get_bolt8_hkdf hs.ck
        (get_ecdh (create_ephemeral_key priv).1 hs.responder_pub)).2 0
      (hs.update (create_ephemeral_key priv).2).h []
    simp [List.length_append, h1, h2, handshake_version]
  · rw [aead_encrypt_length]
    rfl

/-- C6: consuming the Act 2 reply, `main_loop` fails with the protocol error
whenever the received chunk is not exactly 50 bytes or its version byte is
not `0x00`, and the failure comes out of the check stage, before any Act 2
key derivation or decryption is reached. -/
theorem C6_act2_rejects (hs : HandshakeState) (priv rspns : List Nat)
    (h : rspns.length ≠ 50 ∨ rspns.getD 0 0 ≠ 0) :
    main_loop_act2_checks rspns = .error .protocolErr ∧
    main_loop_act2 hs priv rspns = .error .protocolErr := by
  have hc : main_loop_act2_checks rspns = .error .protocolErr := by
    by_cases hl : rspns.length = 50
    · rcases h with h | h
      · exact absurd hl h
      · rcases rspns with _ | ⟨b, t⟩
        · simp [main_loop_act2_checks]
        · have hb : b ≠ 0 := by simpa using h
          simp [main_loop_act2_checks, hl, hb]
    · simp [main_loop_act2_checks, hl]
  exact ⟨hc, by simp [main_loop_act2, hc]⟩

theorem C6_witness : (([] : List Nat).length ≠ 50 ∨ ([] : List Nat).getD 0 0 ≠ 0) ∧
    (main_loop_act2_checks [] = .error .protocolErr ∧
     main_loop_act2 (HandshakeState.init (List.replicate 33 2))
       (List.replicate 33 1) [] = .error .protocolErr) :=
  ⟨Or.inl (by decide),
   C6_act2_rejects (HandshakeState.init (List.replicate 33 2))
     (List.replicate 33 1) [] (Or.inl (by decide))⟩

/-- C10: `create_ephemeral_key` is the pure function returning the first 32
bytes of its input as the "ephemeral" private scalar together with the
derived compressed public key; the pair recomputed for Act 2 in `main_loop`
is therefore byte-for-byte the Act 1 pair, and it coincides with the
initiator's long-term static key `(my_privkey[:32], privkey_to_pubkey
my_privkey)` — indeed the 33 bytes after the version byte of the Act 1
message are exactly the static public key. -/
theorem C10_ephemeral_is_static (priv rpub : List Nat) :
    create_ephemeral_key priv = (priv.take 32, privkey_to_pubkey priv) ∧
    privkey_to_pubkey priv = public_key_from_private_key (priv.take 32) ∧
    ((act1_initiator_message (HandshakeState.init rpub) priv).1.drop 1).take 33
      = privkey_to_pubkey priv :=
  ⟨rfl, rfl, take33_pubkey priv _⟩

/-- C4: for every 32-byte key, 64-bit nonce counter, associated data and
plaintext, `aead_decrypt` applied to the output of `aead_encrypt` under the
same key, nonce and associated data returns the original plaintext. -/
theorem C4_aead_roundtrip (k : List Nat) (n : Nat) (ad pt : List Nat)
    (_hk : k.length = 32) (_hn : n < 2 ^ 64) :
    aead_decrypt k n ad (aead_encrypt k n ad pt) = some pt := by
  have hct : (xorKS k (get_nonce_bytes n) 0 pt).length = pt.length :=
    xorKS_length k (get_nonce_bytes n) pt 0
  have htag : (polyTag k (get_nonce_bytes n) ad
      (xorKS k (get_nonce_bytes n) 0 pt)).length = 16 :=
    polyTag_length _ _ _ _
  simp only [aead_encrypt, aead_decrypt]
  rw [List.length_append, hct, htag]
  rw [if_neg (by omega)]
  have hsub : pt.length + 16 - 16 = pt.length := by omega
  rw [hsub, ← hct, List.take_left, List.drop_left]
  rw [if_pos rfl]
  rw [xorKS_invol]

set_option maxRecDepth 40000 in
theorem C4_witness : testKey.length = 32 ∧ 3 < 2 ^ 64 ∧
    aead_decrypt testKey 3 [7] (aead_encrypt testKey 3 [7] [1, 2, 3]) = some [1, 2, 3] :=
  ⟨by decide, by norm_num,
   C4_aead_roundtrip testKey 3 [7] [1, 2, 3] (by decide) (by norm_num)⟩

set_option maxRecDepth 40000 in
/-- C1: the claimed behaviour fails on the code.  With the whole frame in one
chunk, `read_message` returns the plaintext; but fed the same frame one byte
at a time it passes the first sub-18-byte buffer slice straight to
`aead_decrypt`, which raises the authentication failure instead of
accumulating until 18 bytes are buffered and returning the same plaintext. -/
theorem C1_code_bug :
    read_message [send_message testKey 0 [42]] testKey 0 = ReadResult.ok [42] [] ∧
    read_message ((send_message testKey 0 [42]).map fun b => [b]) testKey 0
      = ReadResult.authFail := by decide

set_option maxRecDepth 40000 in
/-- C9: the claimed behaviour fails on the code.  When one chunk delivers two
back-to-back frames, `read_message` consumes the whole chunk, returns the
first plaintext with no unread chunks left, and the second frame's bytes are
dropped with the local buffer — a following call starves.  Delivered as
separate chunks the second frame survives, showing what the claim demanded. -/
theorem C9_code_bug :
    read_message [send_message testKey 0 [1] ++ send_message testKey 2 [2]] testKey 0
      = ReadResult.ok [1] [] ∧
    read_message [] testKey 2 = ReadResult.starved ∧
    read_message [send_message testKey 0 [1], send_message testKey 2 [2]] testKey 0
      = ReadResult.ok [1] [send_message testKey 2 [2]] ∧
    read_message [send_message testKey 2 [2]] testKey 2 = ReadResult.ok [2] [] := by
  decide

/-- C8: in `main_loop`'s transport phase both direction counters start at 0;
`send_message` at counter `n` encrypts the length sub-message at nonce `n`
and the body at nonce `n + 1`; the two sends go out at counters 0 and 2 and
the two reads at counters 0 and 2, each counter advancing by exactly 2 per
message, so the nonces a direction consumes are 0,1,2,3 with no repetition. -/
theorem C8_nonce_discipline (sk rk : List Nat) (chunks : List (List Nat))
    (st : TransportLog) (h : main_loop_transport sk rk chunks = some st) :
    (∀ k n m, send_message k n m
        = aead_encrypt k n [] (encode m.length 2) ++ aead_encrypt k (n + 1) [] m) ∧
    st.sent = [send_message sk 0 init_msg, send_message sk (0 + 2) ping_msg] ∧
    st.sn = 0 + 2 + 2 ∧ st.rn = 0 + 2 + 2 ∧
    (∃ rest1, read_message chunks rk 0 = .ok (st.received.getD 0 []) rest1 ∧
      ∃ rest2, read_message rest1 rk (0 + 2) = .ok (st.received.getD 1 []) rest2) ∧
    noncesUsed [0, 0 + 2] = [0, 1, 2, 3] ∧ (noncesUsed [0, 0 + 2]).Nodup := by
  refine ⟨fun k n m => rfl, ?_⟩
  unfold main_loop_transport at h
  dsimp only at h
  split at h
  case _ msg1 rest1 heq1 =>
    split at h
    case _ msg2 rest2 heq2 =>
      cases h
      refine ⟨rfl, rfl, rfl, ⟨rest1, heq1, rest2, heq2⟩, rfl, by decide⟩
    case _ hne =>
      exact absurd h (by simp)
  case _ hne =>
    exact absurd h (by simp)

set_option maxRecDepth 40000 in
theorem C8_witness :
    main_loop_transport testKey testKey c8chunks = some c8log ∧
    ((∀ k n m, send_message k n m
        = aead_encrypt k n [] (encode m.length 2) ++ aead_encrypt k (n + 1) [] m) ∧
     c8log.sent = [send_message testKey 0 init_msg,
       send_message testKey (0 + 2) ping_msg] ∧
     c8log.sn = 0 + 2 + 2 ∧ c8log.rn = 0 + 2 + 2 ∧
     (∃ rest1, read_message c8chunks testKey 0 = .ok (c8log.received.getD 0 []) rest1 ∧
       ∃ rest2, read_message rest1 testKey (0 + 2)
         = .ok (c8log.received.getD 1 []) rest2) ∧
     noncesUsed [0, 0 + 2] = [0, 1, 2, 3] ∧ (noncesUsed [0, 0 + 2]).Nodup) :=
  ⟨by decide, C8_nonce_discipline testKey testKey c8chunks c8log (by decide)⟩

theorem getD_zipWith_xor (a b : List Nat) (j : Nat) (ha : j < a.length) (hb : j < b.length) :
    (List.zipWith (· ^^^ ·) a b).getD j 0 = a.getD j 0 ^^^ b.getD j 0 := by
  rw [List.getD_eq_getElem _ _ (by simp [List.length_zipWith]; omega),
    List.getD_eq_getElem _ _ (by simpa using ha), List.getD_eq_getElem _ _ (by simpa using hb)]
  simp

theorem getD_mapRange (f : Nat → Nat) (n j : Nat) (h : j < n) :
    ((List.range n).map f).getD j 0 = f j := by
  rw [List.getD_eq_getElem _ _ (by simpa using h)]
  simp

theorem getD_set_self (l : List Nat) (i v : Nat) (h : i < l.length) :
    (l.set i v).getD i 0 = v := by
  rw [List.getD_eq_getElem _ _ (by simpa using h)]
  simp [List.getElem_set_self]

theorem xor_ne_self (a m : Nat) (hm : m ≠ 0) : a ^^^ m ≠ a := by
  intro h
  have h2 : a ^^^ (a ^^^ m) = a ^^^ a := congrArg (a ^^^ ·) h
  rw [Nat.xor_cancel_left, Nat.xor_self] at h2
  exact hm h2

theorem ne_of_getD_ne (a b : List Nat) (j : Nat) (h : a.getD j 0 ≠ b.getD j 0) :
    a ≠ b := fun he => h (by rw [he])

theorem polyTag_getD (k nb ad ct : List Nat) (j : Nat) (hj : j < 16) :
    (polyTag k nb ad ct).getD j 0
      = ((hmac_sha256 (k ++ nb) (ad ++ encode ct.length 8)).take 16).getD j 0
          ^^^ strideXor (ct.drop j) := by
  unfold polyTag xorFold16
  rw [getD_zipWith_xor _ _ _ (by simp [hmac_sha256_length]; omega) (by simpa using hj),
    getD_mapRange _ _ _ hj]

theorem strideXor_pair (a b : Nat) : strideXor [a, b] = a := by
  have h15 : List.drop 15 [b] = [] := rfl
  simp [strideXor, strideXorAux, h15]

theorem strideXor_single (b : Nat) : strideXor [b] = b := by
  simp [strideXor, strideXorAux]

theorem flip2_tag_ne (k nb ad : List Nat) (c0 c1 j m : Nat)
    (hj : j < 2) (hm : m ≠ 0) :
    polyTag k nb ad ([c0, c1].set j ([c0, c1].getD j 0 ^^^ m)) ≠ polyTag k nb ad [c0, c1] := by
  interval_cases j
  · apply ne_of_getD_ne _ _ 0
    rw [polyTag_getD _ _ _ _ 0 (by omega), polyTag_getD _ _ _ _ 0 (by omega)]
    simp only [List.set, List.getD_cons_zero, List.length_cons, List.length_nil, List.drop_zero,
      strideXor_pair]
    intro he
    have hxy : c0 ^^^ m = c0 := by
      have h1 := congrArg (fun z =>
        ((hmac_sha256 (k ++ nb) (ad ++ encode ([c0, c1] : List Nat).length 8)).take 16).getD 0 0 ^^^ z) he
      simpa [Nat.xor_cancel_left] using h1
    exact xor_ne_self c0 m hm hxy
  · apply ne_of_getD_ne _ _ 1
    rw [polyTag_getD _ _ _ _ 1 (by omega), polyTag_getD _ _ _ _ 1 (by omega)]
    simp only [List.set, List.getD_cons_succ, List.getD_cons_zero, List.length_cons,
      List.length_nil, List.drop_succ_cons, List.drop_zero, strideXor_single]
    intro he
    have hxy : c1 ^^^ m = c1 := by
      have h1 := congrArg (fun z =>
        ((hmac_sha256 (k ++ nb) (ad ++ encode ([c0, c1] : List Nat).length 8)).take 16).getD 1 0 ^^^ z) he
      simpa [Nat.xor_cancel_left] using h1
    exact xor_ne_self c1 m hm hxy

theorem aead_decrypt_flip (k : List Nat) (n : Nat) (ad pt : List Nat) (j kk : Nat)
    (hpt : pt.length = 2) (hj : j < 18) :
    aead_decrypt k n ad (flipBit (aead_encrypt k n ad pt) j kk) = none := by
  have hm : (1 <<< kk) ≠ 0 := by
    rw [Nat.one_shiftLeft]
    positivity
  have hct : (xorKS k (get_nonce_bytes n) 0 pt).length = 2 := by
    rw [xorKS_length]
    exact hpt
  obtain ⟨c0, c1, hcteq⟩ : ∃ c0 c1, xorKS k (get_nonce_bytes n) 0 pt = [c0, c1] := by
    rcases hx : xorKS k (get_nonce_bytes n) 0 pt with _ | ⟨a, _ | ⟨b, _ | ⟨c, t⟩⟩⟩
    · rw [hx] at hct; simp at hct
    · rw [hx] at hct; simp at hct
    · exact ⟨a, b, rfl⟩
    · rw [hx] at hct; simp at hct
  rw [show aead_encrypt k n ad pt
      = xorKS k (get_nonce_bytes n) 0 pt
        ++ polyTag k (get_nonce_bytes n) ad (xorKS k (get_nonce_bytes n) 0 pt) from rfl,
    hcteq]
  set tg := polyTag k (get_nonce_bytes n) ad [c0, c1] with htgdef
  have htg : tg.length = 16 := polyTag_length _ _ _ _
  have hlen2 : ([c0, c1] : List Nat).length = 2 := rfl
  unfold flipBit
  by_cases hj2 : j < 2
  · rw [List.set_append_left _ _ (by rw [hlen2]; omega),
      List.getD_append _ _ _ _ (by rw [hlen2]; omega)]
    set ct' := [c0, c1].set j ([c0, c1].getD j 0 ^^^ (1 <<< kk)) with hct'
    have hct'len : ct'.length = 2 := by rw [hct', List.length_set]; rfl
    have hne : polyTag k (get_nonce_bytes n) ad ct' ≠ tg := by
      rw [htgdef, hct']
      exact flip2_tag_ne k (get_nonce_bytes n) ad c0 c1 j (1 <<< kk) hj2 hm
    simp only [aead_decrypt]
    have hdlen : (ct' ++ tg).length = 18 := by rw [List.length_append, hct'len, htg]
    rw [hdlen, if_neg (by omega)]
    have htake : (ct' ++ tg).take (18 - 16) = ct' := by
      rw [show (18 : Nat) - 16 = ct'.length by rw [hct'len]]
      exact List.take_left _ _
    have hdrop : (ct' ++ tg).drop (18 - 16) = tg := by
      rw [show (18 : Nat) - 16 = ct'.length by rw [hct'len]]
      exact List.drop_left _ _
    rw [htake, hdrop, if_neg hne]
  · push_neg at hj2
    rw [List.set_append_right _ _ (by rw [hlen2]; omega),
      List.getD_append_right _ _ _ _ (by rw [hlen2]; omega), hlen2]
    set tg' := tg.set (j - 2) (tg.getD (j - 2) 0 ^^^ (1 <<< kk)) with htg'
    have htg'len : tg'.length = 16 := by rw [htg', List.length_set, htg]
    have hne : polyTag k (get_nonce_bytes n) ad [c0, c1] ≠ tg' := by
      rw [← htgdef]
      apply ne_of_getD_ne _ _ (j - 2)
      rw [htg', getD_set_self _ _ _ (by rw [htg]; omega)]
      exact (xor_ne_self _ _ hm).symm
    simp only [aead_decrypt]
    have hdlen : ([c0, c1] ++ tg').length = 18 := by
      rw [List.length_append, hlen2, htg'len]
    rw [hdlen, if_neg (by omega)]
    have htake : ([c0, c1] ++ tg').take (18 - 16) = [c0, c1] := by
      rw [show (18 : Nat) - 16 = ([c0, c1] : List Nat).length from rfl]
      exact List.take_left _ _
    have hdrop : ([c0, c1] ++ tg').drop (18 - 16) = tg' := by
      rw [show (18 : Nat) - 16 = ([c0, c1] : List Nat).length from rfl]
      exact List.drop_left _ _
    rw [htake, hdrop, if_neg hne]

theorem read_message_fail_first (rk : List Nat) (rn : Nat) (chunk : List Nat)
    (more : List (List Nat)) (h : aead_decrypt rk rn [] (chunk.take 18) = none) :
    read_message (chunk :: more) rk rn = .authFail := by
  unfold read_message read_message_loop
  simp [h]

/-- C7: for every key, receive counter, frame length, and single-bit flip in
the 18-byte encrypted length field, `read_message` raises the authentication
failure on the very first decryption, whatever bytes (if any) of the body
follow in the stream — so no body byte is decrypted and no partial data is
returned. -/
theorem C7_tampered_length_field (rk : List Nat) (rn L j k : Nat)
    (body : List Nat) (more : List (List Nat))
    (_hL : L < 65536) (hj : j < 18) (_hk : k < 8) :
    read_message ((flipBit (aead_encrypt rk rn [] (encode L 2)) j k ++ body) :: more) rk rn
      = ReadResult.authFail := by
  have hlenflip : (flipBit (aead_encrypt rk rn [] (encode L 2)) j k).length = 18 := by
    simp [flipBit, List.length_set, aead_encrypt_length, encode_length]
  apply read_message_fail_first
  rw [show (flipBit (aead_encrypt rk rn [] (encode L 2)) j k ++ body).take 18
      = flipBit (aead_encrypt rk rn [] (encode L 2)) j k by
    rw [← hlenflip]; exact List.take_left _ _]
  exact aead_decrypt_flip rk rn [] (encode L 2) j k (encode_length 2 L) hj

set_option maxRecDepth 40000 in
theorem C7_witness : 1 < 65536 ∧ 0 < 18 ∧ 0 < 8 ∧
    read_message [flipBit (aead_encrypt testKey 0 [] (encode 1 2)) 0 0 ++ [9, 9, 9]]
      testKey 0 = ReadResult.authFail :=
  ⟨by norm_num, by norm_num, by norm_num,
   C7_tampered_length_field testKey 0 1 0 0 [9, 9, 9] []
     (by norm_num) (by norm_num) (by norm_num)⟩

end LNBase
